import Mathlib

/-!
besc-buy-bot — verification of the trade polling / dedup / broadcast engine.

Shallow embedding of the core of `src/index.js` (the operative implementation;
`src/unnamed/part_000` is an earlier revision of the same bot and is modeled
where a claim cites it).  JS numbers are modeled as rationals, millisecond
timestamps as integers, JS objects used as string-keyed dictionaries as
association lists. `null`/`undefined` are modeled with `Option`; the JS
falsy coercions that the source relies on (`!tradeId`, `a || b`) are spelled
out at each use site.
-/

namespace BescBot

/-- A normalized trade event: the object built by `normalizeTrades`
(src/index.js:363-374).  `ts` is `new Date(a.block_timestamp).getTime()`,
an integer millisecond timestamp. -/
structure Trade where
  id : String
  tx : String
  priceUsd : ℚ
  amountUsd : ℚ
  amountToken : ℚ
  tradeType : String
  buyer : Option String
  fromToken : String
  toToken : String
  ts : Int
  deriving Repr, DecidableEq

/-- One raw item of the feed response array `data.data`: `x.id` plus the
fields of `x.attributes` read by `normalizeTrades` (src/index.js:353-374).
Fields the API may omit are `Option`.  `kind` is taken already lowercased
(the source applies `(a.kind || "").toLowerCase()`; case normalization is
not re-modeled). -/
structure RawItem where
  id : String
  kind : String
  tx_hash : String
  from_token_amount : ℚ
  to_token_amount : ℚ
  volume_in_usd : Option ℚ
  price_to_in_usd : Option ℚ
  price_from_in_usd : Option ℚ
  tx_from_address : Option String
  from_token_address : String
  to_token_address : String
  block_timestamp : Int
  deriving Repr, DecidableEq

/-- The body of the `.map` in `normalizeTrades` (src/index.js:353-375): build
the trade object, or `none` for zero/negative-usd items
(`if (usdAmount <= 0) return null`, removed by the later `.filter(Boolean)`).
`buyer` mirrors `a.tx_from_address || null`: the empty string is falsy. -/
def normalizeOneTrade (x : RawItem) : Option Trade :=
  let kind := x.kind
  let isSell := kind = "sell"
  let tokenAmount := if isSell then x.from_token_amount else x.to_token_amount
  let usdAmount := x.volume_in_usd.getD 0
  if usdAmount ≤ 0 then none
  else some {
    id := x.id
    tx := x.tx_hash
    priceUsd := x.price_to_in_usd.getD (x.price_from_in_usd.getD 0)
    amountUsd := usdAmount
    amountToken := tokenAmount
    tradeType := kind
    buyer := match x.tx_from_address with
             | some s => if s = "" then none else some s
             | none => none
    fromToken := x.from_token_address
    toToken := x.to_token_address
    ts := x.block_timestamp }

/-- The JS sort comparator `(a, b) => b.ts - a.ts` of `normalizeTrades`, as
the Boolean "may precede" relation it induces: `a` may come before `b` iff
`b.ts ≤ a.ts` (newest first). -/
def newestFirst (a b : Trade) : Bool := b.ts ≤ a.ts

/-- src/index.js:351-378: map raw items, drop zero-usd ones, sort newest
first. -/
def normalizeTrades (items : List RawItem) : List Trade :=
  (items.filterMap normalizeOneTrade).mergeSort newestFirst

/-- C9: every trade returned by `normalizeTrades` has strictly positive usd
notional (zero or non-positive usd items are silently dropped), and the
returned list is sorted by block timestamp newest-first — the ordering
`tickOnce` relies on when it takes `trades[0]` as the single newest trade. -/
theorem normalizeTrades_pos_sorted (items : List RawItem) :
    (∀ t ∈ normalizeTrades items, 0 < t.amountUsd) ∧
      (normalizeTrades items).Pairwise (fun a b => b.ts ≤ a.ts) := by
  constructor
  · intro t ht
    rw [normalizeTrades, List.mem_mergeSort] at ht
    obtain ⟨x, -, hx⟩ := List.mem_filterMap.mp ht
    unfold normalizeOneTrade at hx
    by_cases h : x.volume_in_usd.getD 0 ≤ 0
    · simp [h] at hx
    · simp only [h, if_false] at hx
      cases hx
      simpa using lt_of_not_le h
  · have htrans : ∀ a b c : Trade, newestFirst a b → newestFirst b c →
        newestFirst a c := by
      intro a b c hab hbc
      simp only [newestFirst, decide_eq_true_eq] at hab hbc ⊢
      omega
    have htot : ∀ a b : Trade, newestFirst a b || newestFirst b a := by
      intro a b
      simp only [newestFirst, Bool.or_eq_true, decide_eq_true_eq]
      omega
    have h := List.sorted_mergeSort htrans htot (items.filterMap normalizeOneTrade)
    rw [normalizeTrades]
    exact h.imp (fun hab => by simpa [newestFirst] using hab)

/-- A concrete raw feed item, used to instantiate the universal theorems. -/
def rawItemW : RawItem :=
  { id := "t1", kind := "buy", tx_hash := "0xabc"
    from_token_amount := 1, to_token_amount := 2
    volume_in_usd := some 5, price_to_in_usd := none, price_from_in_usd := none
    tx_from_address := some "0xbuyer"
    from_token_address := "0xf", to_token_address := "0xt"
    block_timestamp := 100 }

/-- The trade `normalizeOneTrade` builds from `rawItemW`. -/
def tradeW : Trade :=
  { id := "t1", tx := "0xabc", priceUsd := 0, amountUsd := 5, amountToken := 2
    tradeType := "buy", buyer := some "0xbuyer"
    fromToken := "0xf", toToken := "0xt", ts := 100 }

theorem normalizeTrades_singleton : normalizeTrades [rawItemW] = [tradeW] := by
  have h1 : normalizeOneTrade rawItemW = some tradeW := by decide
  simp [normalizeTrades, List.filterMap_cons, h1]

/-- Witness for C9 at a concrete input. -/
theorem normalizeTrades_pos_sorted_w : 0 < tradeW.amountUsd :=
  (normalizeTrades_pos_sorted [rawItemW]).1 tradeW
    (normalizeTrades_singleton ▸ List.mem_singleton.mpr rfl)

/-- A per-chat buy competition, as created by the wizard
(src/index.js:1411-1417).  `leaderboard` is the JS object
`{ wallet: cumulativeUsd }`, modeled as an association list in insertion
order. -/
structure Competition where
  endsAt : Int
  minBuyUsd : ℚ
  prizes : List String
  leaderboard : List (String × ℚ)
  startedAt : Int
  deriving Repr, DecidableEq

/-- The per-chat configuration: the fields of `defaultChatConfig`
(src/index.js:54-70) that the broadcast path reads or writes.  The
validation bookkeeping (`threadId`, `lastValidation`, `validationStatus`)
only shapes message delivery options and chat eviction, not whether the
engine decides to deliver, and is left out. -/
structure ChatConfig where
  pools : List String
  minBuyUsd : ℚ
  gifUrl : Option String
  gifFileId : Option String
  gifChatId : Option Int
  emojiSmall : String := "🟢"
  emojiMid : String := "💎"
  emojiLarge : String := "🐋"
  tiersSmall : ℚ := 100
  tiersLarge : ℚ := 1000
  tokenSymbols : List (String × String)
  showSells : Bool
  activeCompetition : Option Competition
  deriving Repr, DecidableEq

/-- src/index.js:98-102. -/
def tierEmoji (cfg : ChatConfig) (usd : ℚ) : String :=
  if cfg.tiersLarge ≤ usd then cfg.emojiLarge
  else if cfg.tiersSmall ≤ usd then cfg.emojiMid
  else cfg.emojiSmall

/-- Read `leaderboard[k]` with the source coercion `leaderboard[k] || 0`
(absent key reads as 0). -/
def lbGet (lb : List (String × ℚ)) (k : String) : ℚ :=
  match lb.find? (fun e => e.1 == k) with
  | some e => e.2
  | none => 0

/-- `leaderboard[walletKey] = (leaderboard[walletKey] || 0) + usd`
(src/index.js:533-534): update the entry in place when the key exists,
else append a fresh entry (JS object insertion order). -/
def lbAdd (lb : List (String × ℚ)) (k : String) (v : ℚ) : List (String × ℚ) :=
  if lb.any (fun e => e.1 == k) then
    lb.map (fun e => if e.1 == k then (e.1, e.2 + v) else e)
  else lb ++ [(k, v)]

/-- `const walletKey = trade.buyer || trade.tx` (src/index.js:532); the empty
string is falsy. -/
def walletKey (t : Trade) : String :=
  match t.buyer with
  | some s => if s = "" then t.tx else s
  | none => t.tx

/-- The alert payload assembled by `buildTradeMessage`
(src/index.js:556-663) as handed to `sendTradeMessage`.  The best-effort
market-data enrichment fetched inside it (bounded by an 800 ms race) is
modeled separately by `mcField` below; it never decides whether the message
is produced. -/
structure MessageData where
  emoji : String
  action : String
  usd : ℚ
  symbol : String
  hasUniversalGif : Bool
  hasLocalGif : Bool
  deriving Repr, DecidableEq

/-- src/index.js:556-663 (final validation and payload assembly): `none`
means the source returned `null` and `processTradeForChat` sends nothing. -/
def buildTradeMessage (cfg : ChatConfig) (chatId : Int) (pool : String)
    (trade : Trade) : Option MessageData :=
  let isSell := trade.tradeType = "sell"
  let usd := trade.amountUsd
  let symbol :=
    match cfg.tokenSymbols.find? (fun e => e.1 == pool) with
    | some e => if e.2 = "" then "TOKEN" else e.2
    | none => "TOKEN"
  if isSell ∧ ¬cfg.showSells then none
  else if usd < cfg.minBuyUsd then none
  else some {
    emoji := if isSell then "🔴" else tierEmoji cfg usd
    action := if isSell then "SELL" else "BUY"
    usd := usd
    symbol := symbol
    hasUniversalGif := cfg.gifUrl.isSome
    hasLocalGif := cfg.gifFileId.isSome && (cfg.gifChatId == some chatId) }

/-- src/index.js:521-554: the per-subscriber processing of one
newly-detected trade.  Returns the updated config (the competition credit,
which the source persists with `setChat`) and the message that gets
delivered (`none` = the function returned before `safeSend`, i.e. no
delivery). -/
def processTradeForChat (cfg : ChatConfig) (chatId : Int) (pool : String)
    (trade : Trade) : ChatConfig × Option MessageData :=
  if trade.tradeType = "sell" ∧ ¬cfg.showSells then (cfg, none)
  else
    let usd := trade.amountUsd
    if usd < cfg.minBuyUsd then (cfg, none)
    else
      let cfg' :=
        match cfg.activeCompetition with
        | some comp =>
          if trade.tradeType = "buy" ∧ comp.minBuyUsd ≤ usd then
            let comp' :=
              { comp with leaderboard := lbAdd comp.leaderboard (walletKey trade) usd }
            { cfg with activeCompetition := some comp' }
          else cfg
        | none => cfg
      (cfg', buildTradeMessage cfg' chatId pool trade)

/-- C2: a subscriber with `showSells = false` never gets a sell delivered,
whatever the usd amount — the first filter of `processTradeForChat`
(src/index.js:526) returns before any send. -/
theorem hideSells_suppresses_sells (cfg : ChatConfig) (chatId : Int)
    (pool : String) (trade : Trade) (hshow : cfg.showSells = false)
    (hsell : trade.tradeType = "sell") :
    (processTradeForChat cfg chatId pool trade).2 = none := by
  simp [processTradeForChat, hshow, hsell]

/-- A concrete subscriber configuration with sells hidden and no floor. -/
def cfgW : ChatConfig :=
  { pools := ["0xpool"], minBuyUsd := 0
    gifUrl := none, gifFileId := none, gifChatId := none
    tokenSymbols := [("0xpool", "TKN")], showSells := false
    activeCompetition := none }

/-- A concrete sell trade of 100 usd. -/
def sellTradeW : Trade :=
  { id := "t9", tx := "0xtx9", priceUsd := 1, amountUsd := 100
    amountToken := 100, tradeType := "sell", buyer := some "0xseller"
    fromToken := "0xf", toToken := "0xt", ts := 5 }

/-- Witness for C2. -/
theorem hideSells_suppresses_sells_w :
    (processTradeForChat cfgW 1 "0xpool" sellTradeW).2 = none :=
  hideSells_suppresses_sells cfgW 1 "0xpool" sellTradeW rfl rfl

/-- C3: a trade whose usd notional is strictly below the subscriber floor
`minBuyUsd` is never delivered — either the sell filter or the threshold
filter of `processTradeForChat` (src/index.js:527-528) returns first. -/
theorem below_min_no_delivery (cfg : ChatConfig) (chatId : Int)
    (pool : String) (trade : Trade)
    (hlt : trade.amountUsd < cfg.minBuyUsd) :
    (processTradeForChat cfg chatId pool trade).2 = none := by
  unfold processTradeForChat
  split
  · rfl
  · simp [hlt]

/-- A concrete subscriber with a 50 usd floor. -/
def cfgW3 : ChatConfig :=
  { pools := ["0xpool"], minBuyUsd := 50
    gifUrl := none, gifFileId := none, gifChatId := none
    tokenSymbols := [("0xpool", "TKN")], showSells := true
    activeCompetition := none }

/-- A concrete 30 usd buy, below the 50 usd floor of `cfgW3`. -/
def smallBuyW : Trade :=
  { id := "t2", tx := "0xtx2", priceUsd := 1, amountUsd := 30
    amountToken := 30, tradeType := "buy", buyer := some "0xbuyer2"
    fromToken := "0xf", toToken := "0xt", ts := 6 }

/-- Witness for C3. -/
theorem below_min_no_delivery_w :
    (processTradeForChat cfgW3 1 "0xpool" smallBuyW).2 = none :=
  below_min_no_delivery cfgW3 1 "0xpool" smallBuyW (by norm_num [cfgW3, smallBuyW])

/-- The exact condition under which `processTradeForChat` reaches the
competition-credit branch (src/index.js:531): both chat filters passed
(for a buy the sell filter is vacuous), the trade is a buy, and the usd
notional is at or above the competition floor. -/
def creditQualifies (cfg : ChatConfig) (comp : Competition) (t : Trade) : Bool :=
  (t.tradeType == "buy") && decide (cfg.minBuyUsd ≤ t.amountUsd) &&
    decide (comp.minBuyUsd ≤ t.amountUsd)

/-- The config after a competition credit: usd added to the actor entry. -/
def creditCfg (cfg : ChatConfig) (comp : Competition) (t : Trade) : ChatConfig :=
  let comp' :=
    { comp with leaderboard := lbAdd comp.leaderboard (walletKey t) t.amountUsd }
  { cfg with activeCompetition := some comp' }

theorem lbGet_cons_eq (e : String × ℚ) (rest : List (String × ℚ)) (k : String)
    (he : e.1 = k) : lbGet (e :: rest) k = e.2 := by
  simp [lbGet, List.find?_cons_of_pos, he]

theorem lbGet_cons_ne (e : String × ℚ) (rest : List (String × ℚ)) (k : String)
    (he : e.1 ≠ k) : lbGet (e :: rest) k = lbGet rest k := by
  have hbe : (e.1 == k) = false := beq_eq_false_iff_ne.mpr he
  simp [lbGet, List.find?_cons_of_neg, hbe]

theorem lbAdd_cons_ne (e : String × ℚ) (rest : List (String × ℚ)) (k : String)
    (v : ℚ) (he : e.1 ≠ k) : lbAdd (e :: rest) k v = e :: lbAdd rest k v := by
  have hbe : (e.1 == k) = false := beq_eq_false_iff_ne.mpr he
  by_cases hb : rest.any (fun x => x.1 == k) = true
  · simp only [lbAdd, List.any_cons, hbe, hb, Bool.false_or, if_true, List.map_cons,
      hbe, Bool.false_eq_true, if_false]
  · simp only [lbAdd, List.any_cons, hbe, hb, Bool.false_or, Bool.false_eq_true,
      if_false, List.cons_append]

theorem lbGet_lbAdd_self (lb : List (String × ℚ)) (k : String) (v : ℚ) :
    lbGet (lbAdd lb k v) k = lbGet lb k + v := by
  induction lb with
  | nil => simp [lbGet, lbAdd]
  | cons e rest ih =>
    by_cases he : e.1 = k
    · have hbe : (e.1 == k) = true := beq_iff_eq.mpr he
      have hany : (e :: rest).any (fun x => x.1 == k) = true := by
        simp [List.any_cons, hbe]
      rw [lbAdd, if_pos hany, List.map_cons, if_pos hbe,
        lbGet_cons_eq (e.1, e.2 + v) _ k he, lbGet_cons_eq e rest k he]
    · rw [lbAdd_cons_ne _ _ _ _ he, lbGet_cons_ne _ _ _ he, lbGet_cons_ne _ _ _ he]
      exact ih

theorem lbGet_map_update_ne (rest : List (String × ℚ)) (k k' : String) (v : ℚ)
    (h : k' ≠ k) :
    lbGet (rest.map (fun x => if x.1 == k then (x.1, x.2 + v) else x)) k' =
      lbGet rest k' := by
  induction rest with
  | nil => rfl
  | cons e r ih =>
    by_cases he : e.1 = k
    · have hbe : (e.1 == k) = true := beq_iff_eq.mpr he
      rw [List.map_cons, if_pos hbe]
      have hne : e.1 ≠ k' := by rw [he]; exact fun hc => h hc.symm
      rw [lbGet_cons_ne (e.1, e.2 + v) _ k' hne, lbGet_cons_ne e r k' hne]
      exact ih
    · have hbe : (e.1 == k) = false := beq_eq_false_iff_ne.mpr he
      rw [List.map_cons, if_neg (by simp [hbe])]
      by_cases hk' : e.1 = k'
      · rw [lbGet_cons_eq _ _ _ hk', lbGet_cons_eq _ _ _ hk']
      · rw [lbGet_cons_ne _ _ _ hk', lbGet_cons_ne _ _ _ hk']
        exact ih

theorem lbGet_lbAdd_ne (lb : List (String × ℚ)) (k k' : String) (v : ℚ)
    (h : k' ≠ k) : lbGet (lbAdd lb k v) k' = lbGet lb k' := by
  induction lb with
  | nil =>
    have : (k == k') = false := beq_eq_false_iff_ne.mpr (fun hc => h hc.symm)
    simp [lbGet, lbAdd, this]
  | cons e rest ih =>
    by_cases he : e.1 = k
    · have hbe : (e.1 == k) = true := beq_iff_eq.mpr he
      have hany : (e :: rest).any (fun x => x.1 == k) = true := by
        simp [List.any_cons, hbe]
      have hne : e.1 ≠ k' := by rw [he]; exact fun hc => h hc.symm
      rw [lbAdd, if_pos hany, List.map_cons, if_pos hbe]
      rw [lbGet_cons_ne (e.1, e.2 + v) _ k' hne, lbGet_cons_ne e rest k' hne]
      exact lbGet_map_update_ne rest k k' v h
    · rw [lbAdd_cons_ne _ _ _ _ he]
      by_cases hk' : e.1 = k'
      · rw [lbGet_cons_eq _ _ _ hk', lbGet_cons_eq _ _ _ hk']
      · rw [lbGet_cons_ne _ _ _ hk', lbGet_cons_ne _ _ _ hk']
        exact ih

/-- The competition update of `processTradeForChat` as a branch on
`creditQualifies`: note that no expiry check on `comp.endsAt` occurs. -/
theorem processTradeForChat_fst (cfg : ChatConfig) (chatId : Int)
    (pool : String) (t : Trade) (comp : Competition)
    (h : cfg.activeCompetition = some comp) :
    (processTradeForChat cfg chatId pool t).1 =
      if creditQualifies cfg comp t then creditCfg cfg comp t else cfg := by
  unfold processTradeForChat
  by_cases hsell : t.tradeType = "sell" ∧ ¬(cfg.showSells = true)
  · have hbuy : (t.tradeType == "buy") = false := by
      simp [beq_eq_false_iff_ne, hsell.1]
    simp [hsell, creditQualifies, hbuy]
  · simp only [hsell, if_false]
    by_cases hmin : t.amountUsd < cfg.minBuyUsd
    · have : decide (cfg.minBuyUsd ≤ t.amountUsd) = false := by
        simp [not_le.mpr hmin]
      simp [hmin, creditQualifies, this]
    · simp only [hmin, if_false, h]
      by_cases hq : t.tradeType = "buy" ∧ comp.minBuyUsd ≤ t.amountUsd
      · have h1 : (t.tradeType == "buy") = true := beq_iff_eq.mpr hq.1
        have h2 : decide (cfg.minBuyUsd ≤ t.amountUsd) = true := by
          simp [le_of_not_lt hmin]
        have h3 : decide (comp.minBuyUsd ≤ t.amountUsd) = true := by simp [hq.2]
        simp [hq, creditQualifies, creditCfg, h1, h2, h3]
      · have hqf : creditQualifies cfg comp t = false := by
          rcases not_and_or.mp hq with hb | hc
          · simp [creditQualifies, beq_eq_false_iff_ne.mpr hb]
          · simp [creditQualifies, hc]
        simp [hq, hqf]

/-- Delivery happens exactly when both chat filters pass
(src/index.js:526-528 and the re-check in `buildTradeMessage`,
src/index.js:562-563). -/
theorem processTradeForChat_snd (cfg : ChatConfig) (chatId : Int)
    (pool : String) (t : Trade) :
    (processTradeForChat cfg chatId pool t).2.isSome ↔
      ¬(t.tradeType = "sell" ∧ cfg.showSells = false) ∧
        cfg.minBuyUsd ≤ t.amountUsd := by
  unfold processTradeForChat
  by_cases hsell : t.tradeType = "sell" ∧ ¬(cfg.showSells = true)
  · have : t.tradeType = "sell" ∧ cfg.showSells = false := by
      exact ⟨hsell.1, by simpa using hsell.2⟩
    simp [hsell, this]
  · simp only [hsell, if_false]
    by_cases hmin : t.amountUsd < cfg.minBuyUsd
    · simp [hmin, not_le.mpr hmin]
    · have hle := le_of_not_lt hmin
      have hns : ¬(t.tradeType = "sell" ∧ cfg.showSells = false) := by
        intro hc
        exact hsell ⟨hc.1, by simp [hc.2]⟩
      cases hcomp : cfg.activeCompetition with
      | none =>
        simp only [hmin, if_false, hcomp]
        simp [buildTradeMessage, hsell, hmin, hns, hle]
      | some comp =>
        simp only [hmin, if_false, hcomp]
        by_cases hq : t.tradeType = "buy" ∧ comp.minBuyUsd ≤ t.amountUsd
        · simp [hq, buildTradeMessage, hsell, hmin, hns, hle]
        · simp [hq, buildTradeMessage, hsell, hmin, hns, hle]

/-- Fold of `processTradeForChat` over a list of trades for one chat: the
source runs this once per newly-detected trade (each persisted with
`setChat` before the next is processed). -/
def processAllTrades (cfg : ChatConfig) (chatId : Int) (pool : String)
    (ts : List Trade) : ChatConfig :=
  ts.foldl (fun c t => (processTradeForChat c chatId pool t).1) cfg

theorem processAll_leaderboard (ts : List Trade) :
    ∀ (cfg : ChatConfig) (comp : Competition) (chatId : Int) (pool : String),
      cfg.activeCompetition = some comp →
      ∃ comp', (processAllTrades cfg chatId pool ts).activeCompetition = some comp' ∧
        comp'.endsAt = comp.endsAt ∧ comp'.minBuyUsd = comp.minBuyUsd ∧
        ∀ k, lbGet comp'.leaderboard k =
          lbGet comp.leaderboard k +
            ((ts.filter (fun t => creditQualifies cfg comp t && (walletKey t == k))).map
              Trade.amountUsd).sum := by
  induction ts with
  | nil =>
    intro cfg comp chatId pool h
    exact ⟨comp, h, rfl, rfl, by simp [processAllTrades]⟩
  | cons t rest ih =>
    intro cfg comp chatId pool h
    have hstep := processTradeForChat_fst cfg chatId pool t comp h
    have hfold : processAllTrades cfg chatId pool (t :: rest) =
        processAllTrades ((processTradeForChat cfg chatId pool t).1) chatId pool rest := by
      simp [processAllTrades, List.foldl_cons]
    by_cases hq : creditQualifies cfg comp t = true
    · rw [if_pos hq] at hstep
      have h1 : (creditCfg cfg comp t).activeCompetition =
          some { comp with
            leaderboard := lbAdd comp.leaderboard (walletKey t) t.amountUsd } := rfl
      obtain ⟨comp', hact, hend, hmin, hsum⟩ :=
        ih (creditCfg cfg comp t)
          { comp with leaderboard := lbAdd comp.leaderboard (walletKey t) t.amountUsd }
          chatId pool h1
      refine ⟨comp', by rw [hfold, hstep]; exact hact, hend, hmin, ?_⟩
      intro k
      have hsum' :
          lbGet comp'.leaderboard k =
            lbGet (lbAdd comp.leaderboard (walletKey t) t.amountUsd) k +
              ((rest.filter (fun u => creditQualifies cfg comp u && (walletKey u == k))).map
                Trade.amountUsd).sum := hsum k
      by_cases hk : walletKey t = k
      · have hbk : (walletKey t == k) = true := beq_iff_eq.mpr hk
        rw [List.filter_cons_of_pos (by simp [hq, hbk]), List.map_cons, List.sum_cons,
          hsum',
          show lbGet (lbAdd comp.leaderboard (walletKey t) t.amountUsd) k =
              lbGet comp.leaderboard k + t.amountUsd from hk ▸ lbGet_lbAdd_self _ _ _]
        ring
      · have hbk : (walletKey t == k) = false :=
          beq_eq_false_iff_ne.mpr hk
        rw [List.filter_cons_of_neg (by simp [hbk]), hsum',
          lbGet_lbAdd_ne _ _ _ _ (fun hc => hk hc.symm)]
    · rw [if_neg hq] at hstep
      obtain ⟨comp', hact, hend, hmin, hsum⟩ := ih cfg comp chatId pool h
      refine ⟨comp', by rw [hfold, hstep]; exact hact, hend, hmin, ?_⟩
      intro k
      rw [List.filter_cons_of_neg (by simp [hq])]
      exact hsum k

/-- C4 as frozen: for a delivered trade the leaderboard changes iff the
contest is present, NOT yet expired at the processing time, and the trade
is a qualifying buy. -/
def claimC4Stated : Prop :=
  ∀ (cfg : ChatConfig) (chatId : Int) (pool : String) (t : Trade) (now : Int)
    (comp : Competition), cfg.activeCompetition = some comp →
    (processTradeForChat cfg chatId pool t).2.isSome = true →
    ((((processTradeForChat cfg chatId pool t).1.activeCompetition).map
        Competition.leaderboard ≠ some comp.leaderboard) ↔
      (now < comp.endsAt ∧ t.tradeType = "buy" ∧ comp.minBuyUsd ≤ t.amountUsd))

/-- A competition that expired at time 0. -/
def compX : Competition :=
  { endsAt := 0, minBuyUsd := 10, prizes := ["gold"], leaderboard := []
    startedAt := -100 }

/-- A subscriber holding the expired competition `compX`. -/
def cfgX : ChatConfig :=
  { pools := ["0xpool"], minBuyUsd := 0
    gifUrl := none, gifFileId := none, gifChatId := none
    tokenSymbols := [("0xpool", "TKN")], showSells := false
    activeCompetition := some compX }

/-- A qualifying 50 usd buy. -/
def tX : Trade :=
  { id := "t4", tx := "0xtx4", priceUsd := 1, amountUsd := 50
    amountToken := 50, tradeType := "buy", buyer := some "0xb"
    fromToken := "0xf", toToken := "0xt", ts := 7 }

/-- C4 counterexample: at processing time 100 the contest `compX` is long
expired, the 50 usd buy `tX` is delivered, and the source still credits the
leaderboard — `processTradeForChat` checks only that `activeCompetition` is
present (src/index.js:531), never `endsAt`. -/
theorem contest_expiry_claim_false : ¬ claimC4Stated := by
  intro h
  have h2 := h cfgX 1 "0xpool" tX 100 compX rfl (by decide)
  revert h2
  decide

/-- C4 amended: a delivered trade is credited iff the subscriber has an
active (present) contest and the trade is a qualifying buy — expiry is NOT
checked at credit time (expired contests are cleared only by the periodic
sweep); the credit adds the usd notional to the actor entry (created at
zero if absent) and the record is persisted, so after any sequence of
trades each actor total equals its initial value plus the sum of the usd
amounts of the qualifying delivered buys keyed to that actor. -/
theorem contest_credit_characterization (cfg : ChatConfig) (chatId : Int)
    (pool : String) (comp : Competition)
    (h : cfg.activeCompetition = some comp) :
    (∀ t : Trade,
      (processTradeForChat cfg chatId pool t).1 =
        (if creditQualifies cfg comp t then creditCfg cfg comp t else cfg) ∧
      ((processTradeForChat cfg chatId pool t).2.isSome ↔
        ¬(t.tradeType = "sell" ∧ cfg.showSells = false) ∧
          cfg.minBuyUsd ≤ t.amountUsd)) ∧
    (∀ ts : List Trade, ∃ comp',
      (processAllTrades cfg chatId pool ts).activeCompetition = some comp' ∧
      comp'.endsAt = comp.endsAt ∧ comp'.minBuyUsd = comp.minBuyUsd ∧
      ∀ k, lbGet comp'.leaderboard k =
        lbGet comp.leaderboard k +
          ((ts.filter (fun t => creditQualifies cfg comp t && (walletKey t == k))).map
            Trade.amountUsd).sum) := by
  constructor
  · intro t
    exact ⟨processTradeForChat_fst cfg chatId pool t comp h,
      processTradeForChat_snd cfg chatId pool t⟩
  · intro ts
    exact processAll_leaderboard ts cfg comp chatId pool h

/-- Witness for C4 (amended) at a concrete subscriber and trade. -/
theorem contest_credit_characterization_w :
    (processTradeForChat cfgX 1 "0xpool" tX).2.isSome ↔
      ¬(tX.tradeType = "sell" ∧ cfgX.showSells = false) ∧
        cfgX.minBuyUsd ≤ tX.amountUsd :=
  ((contest_credit_characterization cfgX 1 "0xpool" compX rfl).1 tX).2

/-- A supply value as delivered by the token API: either a
decimal/exponential-notation string (parsed directly by `Number(str)`) or a
raw base-10 digit string, given as its numeric value `n` together with its
digit count `digits` (the `str.length` the source compares against). -/
inductive SupplyLike where
  | strDec (q : ℚ)
  | strInt (n : ℕ) (digits : ℕ)
  deriving Repr, DecidableEq

/-- src/index.js:116-133: `null` returns 0; decimal/exponential strings are
taken as already-adjusted values; raw integer strings longer than
`decimals + 2` digits are divided by `10^decimals`.  (NaN inputs are not
modeled.) -/
def adjustSupply (supplyLike : Option SupplyLike) (decimals : ℕ) : ℚ :=
  match supplyLike with
  | none => 0
  | some (.strDec q) => q
  | some (.strInt n digits) =>
      if decimals + 2 < digits then (n : ℚ) / (10 : ℚ) ^ decimals else (n : ℚ)

/-- The token attributes read by the market-cap enrichment
(src/index.js:579-610). -/
structure TokenAttr where
  market_cap_usd : Option ℚ
  circulating_supply : Option SupplyLike
  total_supply : Option SupplyLike
  fdv_usd : Option ℚ
  decimals : Option ℕ
  price_usd : Option ℚ
  price_percent_change_24h : Option ℚ
  unique_wallet_count : Option ℕ
  deriving Repr, DecidableEq

/-- Label attached to the enrichment value. -/
inductive MCLabel where
  | MC
  | FDV
  deriving Repr, DecidableEq

/-- `const price = Number(trade.priceUsd || tokenAttr.price_usd || 0)`
(src/index.js:580): zero is falsy. -/
def effectivePrice (tradePriceUsd : ℚ) (attr : TokenAttr) : ℚ :=
  if tradePriceUsd ≠ 0 then tradePriceUsd else attr.price_usd.getD 0

/-- The MC/FDV line of `buildTradeMessage` (src/index.js:583-598): start
from `Number(tokenAttr.market_cap_usd ?? 0)` labeled MC; only when that is
falsy AND `price > 0`, fall back to circulating-supply times price (MC), or
failing a positive circulating supply, to `fdv_usd` (FDV).  The line is
rendered only when the final value is positive (`if (mcValue > 0)`);
`none` = the field is omitted.  There is no total-supply branch in this
revision. -/
def mcField (attr : TokenAttr) (price : ℚ) : Option (MCLabel × ℚ) :=
  let mc0 := attr.market_cap_usd.getD 0
  let lv :=
    if mc0 = 0 ∧ 0 < price then
      let circ := adjustSupply attr.circulating_supply (attr.decimals.getD 18)
      if 0 < circ then (MCLabel.MC, circ * price)
      else (MCLabel.FDV, attr.fdv_usd.getD 0)
    else (MCLabel.MC, mc0)
  if 0 < lv.2 then some lv else none

/-- The same computation in the earlier revision of the bot
(src/unnamed/part_000:1539-1555), which still has the total-supply fallback
— but also reaches any fallback only when `price > 0`
(`if (!mcValue && price > 0)`). -/
def mcFieldLegacy (attr : TokenAttr) (price : ℚ) : Option (MCLabel × ℚ) :=
  let mc0 := attr.market_cap_usd.getD 0
  let lv :=
    if mc0 = 0 ∧ 0 < price then
      let circ := adjustSupply attr.circulating_supply (attr.decimals.getD 18)
      if 0 < circ then (MCLabel.MC, circ * price)
      else if attr.fdv_usd.isSome ∧ attr.fdv_usd.getD 0 ≠ 0 then
        (MCLabel.FDV, attr.fdv_usd.getD 0)
      else
        let total := adjustSupply attr.total_supply (attr.decimals.getD 18)
        if 0 < total then (MCLabel.FDV, total * price) else (MCLabel.MC, mc0)
    else (MCLabel.MC, mc0)
  if 0 < lv.2 then some lv else none

/-- The fallback chain exactly as C5 states it: explicit market cap (MC);
else circulating-supply times price when price is positive and circulating
supply is known (MC); else a supplied fully-diluted valuation, used
directly (FDV); else total-supply times price when total supply is known
(FDV); else omit. -/
def mcFieldClaim (attr : TokenAttr) (price : ℚ) : Option (MCLabel × ℚ) :=
  match attr.market_cap_usd with
  | some m => some (MCLabel.MC, m)
  | none =>
    let d := attr.decimals.getD 18
    let circ := adjustSupply attr.circulating_supply d
    if 0 < price ∧ 0 < circ then some (MCLabel.MC, circ * price)
    else
      match attr.fdv_usd with
      | some f => some (MCLabel.FDV, f)
      | none =>
        let total := adjustSupply attr.total_supply d
        if 0 < total then some (MCLabel.FDV, total * price) else none

/-- C5 as frozen: the enrichment reproduces the four-step chain exactly. -/
def claimC5Stated : Prop :=
  ∀ (attr : TokenAttr) (price : ℚ), mcField attr price = mcFieldClaim attr price

/-- A token with no market cap, no circulating supply, no fdv, and a known
total supply of 1000 (a 4-digit raw integer string, left unscaled). -/
def attrC5 : TokenAttr :=
  { market_cap_usd := none, circulating_supply := none
    total_supply := some (.strInt 1000 4), fdv_usd := none
    decimals := some 18, price_usd := none
    price_percent_change_24h := none, unique_wallet_count := none }

/-- C5 counterexample: at `attrC5` with price 2 the claimed chain shows
"FDV: $2000" from the total supply, but the source
(src/index.js:583-598) has no total-supply branch and omits the field. -/
theorem mc_fallback_claim_false : ¬ claimC5Stated := by
  intro h
  exact absurd (h attrC5 2) (by decide)

/-- The actual chain of src/index.js:583-598 restated declaratively. -/
def mcFieldAmended (attr : TokenAttr) (price : ℚ) : Option (MCLabel × ℚ) :=
  let mc0 := attr.market_cap_usd.getD 0
  let circ := adjustSupply attr.circulating_supply (attr.decimals.getD 18)
  let fdv := attr.fdv_usd.getD 0
  if 0 < mc0 then some (MCLabel.MC, mc0)
  else if mc0 = 0 ∧ 0 < price ∧ 0 < circ then some (MCLabel.MC, circ * price)
  else if mc0 = 0 ∧ 0 < price ∧ circ ≤ 0 ∧ 0 < fdv then some (MCLabel.FDV, fdv)
  else none

/-- C5 amended: the enrichment uses the explicit `market_cap_usd` labeled MC
when positive; otherwise, only when the explicit value is zero-or-absent
AND the price is positive, it uses circulating-supply times price labeled
MC when the adjusted circulating supply is positive, else `fdv_usd` used
directly labeled FDV; the field is rendered only when the resulting value
is positive and is omitted in every other case — in particular there is no
total-supply fallback, and the FDV branch is gated on a positive price. -/
theorem mcField_matches_actual_chain (attr : TokenAttr) (price : ℚ) :
    mcField attr price = mcFieldAmended attr price := by
  unfold mcField mcFieldAmended
  set mc0 := attr.market_cap_usd.getD 0 with hmc0
  set circ := adjustSupply attr.circulating_supply (attr.decimals.getD 18) with hcirc
  set fdv := attr.fdv_usd.getD 0 with hfdv
  by_cases h1 : mc0 = 0
  · by_cases h2 : 0 < price
    · by_cases h3 : 0 < circ
      · have hcp : 0 < circ * price := mul_pos h3 h2
        simp [h1, h2, h3, hcp]
      · have hle : circ ≤ 0 := le_of_not_lt h3
        by_cases h4 : 0 < fdv
        · simp [h1, h2, h3, h4, hle]
        · simp [h1, h2, h3, h4, hle]
    · simp [h1, h2, lt_irrefl]
  · by_cases h5 : 0 < mc0
    · simp [h1, h5]
    · simp [h1, h5]

/-- The per-pool last-seen store: the `pool:{pool}:lastTradeId` keys of
Redis or of the in-memory Map, as an association list. -/
def storeGet (st : List (String × String)) (pool : String) : Option String :=
  (st.find? (fun e => e.1 == pool)).map Prod.snd

/-- Write `pool:{pool}:lastTradeId = tid`. -/
def storeSet (st : List (String × String)) (pool tid : String) :
    List (String × String) :=
  if st.any (fun e => e.1 == pool) then
    st.map (fun e => if e.1 == pool then (e.1, tid) else e)
  else st ++ [(pool, tid)]

/-- src/index.js:435-465: the dedup check.  Returns `true` for a falsy
trade id (`if (!tradeId) return true` — "Invalid ID = already seen"), for
a stored last id equal to `tradeId`, and — via the catch —
whenever the storage read/write throws (`return true; // Assume seen on
error to prevent spam`), which `storageFails` models; otherwise it records
`tradeId` as last seen and returns `false`.  The `activePools` activity
bookkeeping it also performs only orders `refreshPoolSet` and is modeled
there as the `activity` parameter. -/
def seen (st : List (String × String)) (pool tradeId : String)
    (storageFails : Bool) : Bool × List (String × String) :=
  if tradeId = "" then (true, st)
  else if storageFails then (true, st)
  else if storeGet st pool = some tradeId then (true, st)
  else (false, storeSet st pool tradeId)

/-- The dedup/broadcast decision of `tickOnce` (src/index.js:716-729) on
the newest-first trade list of one tick: returns whether `broadcastTrade`
is invoked, and the updated store.  NOTE the polarity in the source:
`const isNew = await seen(pool, latest.id); if (isNew) { broadcastTrade
... }` — it broadcasts exactly when `seen` returned `true`. -/
def tickOnceBroadcasts (st : List (String × String)) (pool : String)
    (trades : List Trade) (storageFails : Bool) :
    Bool × List (String × String) :=
  match trades with
  | [] => (false, st)
  | latest :: _ =>
    if latest.id = "" then (false, st)
    else seen st pool latest.id storageFails

/-- A fresh 100 usd buy with id "t1". -/
def t1W : Trade :=
  { id := "t1", tx := "0xt1", priceUsd := 1, amountUsd := 100
    amountToken := 100, tradeType := "buy", buyer := some "0xb1"
    fromToken := "0xf", toToken := "0xt", ts := 10 }

/-- C1 evaluated at the failing input: the same newest trade id "t1" on two
consecutive ticks.  The first tick records the id and broadcasts NOTHING;
the second tick — the duplicate — BROADCASTS, because `tickOnce` treats
the `true` returned by `seen` (meaning already seen) as `isNew`.  The
claim (and the spec dedup contract) requires the opposite on both ticks. -/
theorem dedup_polarity_bug :
    tickOnceBroadcasts [] "0xpool" [t1W] false = (false, [("0xpool", "t1")]) ∧
    tickOnceBroadcasts [("0xpool", "t1")] "0xpool" [t1W] false =
      (true, [("0xpool", "t1")]) := by
  decide

/-- C10 evaluated: `seen` does return `true` for an empty trade id and
`true` when storage fails, and a trade with an empty id is never broadcast.
BUT a fresh trade checked while storage fails IS broadcast — with nothing
recorded — because `tickOnce` broadcasts exactly when `seen` returns
`true`; the claim says such a trade is never broadcast and that a
broadcast happens only after a successful record. -/
theorem seen_guards_but_broadcast_on_failure :
    seen [] "0xpool" "" false = (true, []) ∧
    seen [] "0xpool" "t1" true = (true, []) ∧
    tickOnceBroadcasts [] "0xpool"
      [{ t1W with id := "" }] true = (false, []) ∧
    tickOnceBroadcasts [] "0xpool" [t1W] true = (true, []) := by
  decide

/-- Fetch attempt outcomes for `fetchTradesForPool`
(src/index.js:266-317).  With `validateStatus: () => true` every HTTP
status resolves (`resp`); only network-level failures throw
(`thrown`). -/
inductive FetchResp where
  | okTrades (items : List RawItem)
  | status404
  | status429
  | otherBody
  deriving Repr, DecidableEq

/-- A thrown error, classified as the catch block does: a response with
status 429 attached (branch kept from the source although
`validateStatus: () => true` prevents axios from throwing on HTTP
statuses), a connection reset/timeout, or anything else. -/
inductive FetchErr where
  | err429
  | errNet
  | errOther
  deriving Repr, DecidableEq

/-- The outcome of one attempt. -/
inductive Outcome where
  | resp (r : FetchResp)
  | thrown (e : FetchErr)
  deriving Repr, DecidableEq

/-- The wait in ms performed before the next retry after a thrown error at
0-based `attempt` (src/index.js:303-312): 3000 for a thrown 429,
`500 * (attempt + 1)` for reset/timeout, `1000 * (attempt + 1)`
otherwise. -/
def retryWait : FetchErr → ℕ → ℕ
  | .err429, _ => 3000
  | .errNet, attempt => 500 * (attempt + 1)
  | .errOther, attempt => 1000 * (attempt + 1)

/-- Observable events of the fetch loop. -/
inductive FetchEv where
  | request
  | throttled
  | wait (ms : ℕ)
  | poolGone
  deriving Repr, DecidableEq

/-- The event trace and result of `fetchTradesForPool` given the per-attempt
outcomes (src/index.js:266-317): a resolved response returns immediately —
an array body with the normalized trades, a 404 after `notifyPoolGone`, and
ANY other status (429 included) with `[]`, with no wait; a thrown error
returns `[]` at the last attempt and otherwise waits `retryWait` and
retries. -/
def fetchTradesGo (retries attempt : ℕ) (outcomes : List Outcome) :
    List FetchEv × List Trade :=
  match outcomes with
  | [] => ([], [])
  | o :: rest =>
    match o with
    | .resp (.okTrades items) => ([.request], normalizeTrades items)
    | .resp .status404 => ([.request, .poolGone], [])
    | .resp .status429 => ([.request, .throttled], [])
    | .resp .otherBody => ([.request], [])
    | .thrown e =>
      if attempt = retries then ([.request], [])
      else
        let r := fetchTradesGo retries (attempt + 1) rest
        (FetchEv.request :: FetchEv.wait (retryWait e attempt) :: r.1, r.2)

/-- `fetchTradesForPool` with its default `retries = 3`. -/
def fetchTradesEvents (outcomes : List Outcome) : List FetchEv × List Trade :=
  fetchTradesGo 3 0 outcomes

/-- Consecutive calls to `fetchTradesForPool`: the function holds no state
across calls (the only module state it touches is `poolGoneNotified`), so a
sequence of calls is just the concatenation of the per-call traces. -/
def runFetchCalls (calls : List (List Outcome)) : List FetchEv :=
  (calls.map (fun c => (fetchTradesEvents c).1)).flatten

/-- C6 as frozen, in its weakest testable consequence: after a throttling
(429) response, some positive cooldown wait separates it from EVERY later
outbound request (not just the throttled caller). -/
def claimC6Stated : Prop :=
  ∀ (calls : List (List Outcome)) (i j : ℕ), i < j →
    (runFetchCalls calls)[i]? = some FetchEv.throttled →
    (runFetchCalls calls)[j]? = some FetchEv.request →
    ∃ k w, i < k ∧ k < j ∧ (runFetchCalls calls)[k]? = some (FetchEv.wait w) ∧ 0 < w

/-- C6 counterexample: a call that receives HTTP 429 returns immediately
(no wait — with `validateStatus: () => true` a 429 resolves and falls to
`return []`), and the very next call issues its request at once: trace
`[request, throttled, request]` with no wait in between.  No shared
cooldown timestamp exists in the source. -/
theorem shared_cooldown_claim_false : ¬ claimC6Stated := by
  intro h
  obtain ⟨k, w, hik, hkj, -, -⟩ :=
    h [[.resp .status429], [.resp .otherBody]] 1 2 (by norm_num)
      (by decide) (by decide)
  omega

/-- C6 amended: a throttled (429) response makes `fetchTradesForPool`
return an empty list immediately — no wait is performed and no cooldown is
stored; subsequent calls are independent of earlier ones (the combined
trace is the plain concatenation of per-call traces, so they issue their
requests unchanged); waits happen only between retry attempts after thrown
errors, and for each error kind the retry wait is monotonically
non-decreasing in the attempt number. -/
theorem throttle_behavior_actual :
    (∀ rest : List Outcome,
      fetchTradesGo 3 0 (Outcome.resp FetchResp.status429 :: rest) =
        ([FetchEv.request, FetchEv.throttled], [])) ∧
    (∀ (c : List Outcome) (cs : List (List Outcome)),
      runFetchCalls (c :: cs) = (fetchTradesEvents c).1 ++ runFetchCalls cs) ∧
    (∀ (e : FetchErr) (a b : ℕ), a ≤ b → retryWait e a ≤ retryWait e b) := by
  refine ⟨fun rest => rfl, fun c cs => by simp [runFetchCalls], ?_⟩
  intro e a b hab
  cases e <;> simp [retryWait] <;> omega

/-- Witness for C6 (amended): the monotonicity part at attempts 0 ≤ 2. -/
theorem throttle_behavior_actual_w :
    retryWait FetchErr.errNet 0 ≤ retryWait FetchErr.errNet 2 :=
  throttle_behavior_actual.2.2 FetchErr.errNet 0 2 (by norm_num)

/-- The scheduling step of `tickOnce` (src/index.js:702-708): an empty
round-robin list is a no-op (`if (!poolRoundRobin.length) return`);
otherwise `shift` the head pool (the one processed this tick) and `push`
it to the tail. -/
def tickOnceRotate : List String → Option String × List String
  | [] => (none, [])
  | h :: t => (some h, t ++ [h])

/-- `n` consecutive ticks with no interleaved `refreshPoolSet`: the list of
pools processed, in order, and the final round-robin list. -/
def runTicks : ℕ → List String → List String × List String
  | 0, l => ([], l)
  | n + 1, l =>
    match tickOnceRotate l with
    | (none, l') => ([], l')
    | (some p, l') =>
      let r := runTicks n l'
      (p :: r.1, r.2)

theorem runTicks_take_rotate :
    ∀ (n : ℕ) (l : List String), n ≤ l.length →
      runTicks n l = (l.take n, l.rotate n) := by
  intro n
  induction n with
  | zero => intro l _; simp [runTicks]
  | succ n ih =>
    intro l hlen
    match l with
    | [] => simp at hlen
    | x :: t =>
      have hn : n ≤ t.length := by simpa using hlen
      have hrec := ih (t ++ [x]) (by simp; omega)
      simp only [runTicks, tickOnceRotate, hrec, Prod.mk.injEq]
      constructor
      · rw [List.take_append_eq_append_take, Nat.sub_eq_zero_of_le hn]
        simp [List.take_succ_cons]
      · rw [List.rotate_cons_succ]

/-- C7: on a duplicate-free round-robin list left unchanged by refreshes,
`l.length` consecutive ticks process every pool exactly once — the
processed sequence is the list itself — and return the list to its
starting order; a tick on the empty list is a no-op that changes
nothing. -/
theorem round_robin_fair :
    (∀ l : List String, l.Nodup →
      (runTicks l.length l).1 = l ∧ (runTicks l.length l).2 = l ∧
        ∀ p ∈ l, (runTicks l.length l).1.count p = 1) ∧
    tickOnceRotate [] = (none, []) ∧
    ∀ n : ℕ, runTicks n [] = ([], []) := by
  refine ⟨?_, rfl, ?_⟩
  · intro l hnd
    have h := runTicks_take_rotate l.length l le_rfl
    rw [h, List.take_length, List.rotate_length]
    exact ⟨rfl, rfl, fun p hp => List.count_eq_one_of_mem hnd hp⟩
  · intro n
    cases n <;> rfl

/-- Witness for C7: three pools, three ticks, each processed once. -/
theorem round_robin_fair_w :
    (runTicks 3 ["a", "b", "c"]).1 = ["a", "b", "c"] :=
  (round_robin_fair.1 ["a", "b", "c"] (by decide)).1

/-- The JS `Set.add` of `refreshPoolSet`: append the pool when not yet
present (first-insertion order). -/
def insertUnique (acc : List String) (x : String) : List String :=
  if x ∈ acc then acc else acc ++ [x]

/-- The deduplicated union of every chat's `pools`
(src/index.js:386-404), keyed registry entries `(chatId, config)`. -/
def poolUnion (registry : List (Int × ChatConfig)) : List String :=
  registry.foldl (fun acc e => e.2.pools.foldl insertUnique acc) []

/-- src/index.js:384-429: the new round-robin list — the union of all
subscriber pools, sorted by recency of activity
(`activePools.get(p)?.lastTrade || 0`, most recent first). -/
def refreshPoolSet (registry : List (Int × ChatConfig)) (activity : String → Int) :
    List String :=
  (poolUnion registry).mergeSort (fun a b => activity b ≤ activity a)

/-- src/index.js:320-349 (`notifyPoolGone`): when the pool is already in the
`poolGoneNotified` set, do nothing; otherwise add it to the set and notify
every chat whose config tracks the pool.  Returns (notified chats, new
set).  Nothing else changes — in particular no subscriber config and no
polling structure. -/
def notifyPoolGone (notified : List String) (registry : List (Int × ChatConfig))
    (pool : String) : List Int × List String :=
  if pool ∈ notified then ([], notified)
  else (((registry.filter (fun e => decide (pool ∈ e.2.pools))).map Prod.fst),
    pool :: notified)

theorem mem_foldl_insertUnique (ps : List String) :
    ∀ (acc : List String) (x : String),
      x ∈ ps.foldl insertUnique acc ↔ x ∈ acc ∨ x ∈ ps := by
  induction ps with
  | nil => intro acc x; simp
  | cons p rest ih =>
    intro acc x
    rw [List.foldl_cons, ih]
    unfold insertUnique
    by_cases hp : p ∈ acc
    · simp only [hp, if_true, List.mem_cons]
      constructor
      · rintro (h | h)
        · exact Or.inl h
        · exact Or.inr (Or.inr h)
      · rintro (h | h | h)
        · exact Or.inl h
        · exact Or.inl (h ▸ hp)
        · exact Or.inr h
    · simp only [hp, if_false, List.mem_append, List.mem_singleton, List.mem_cons]
      tauto

theorem mem_poolUnion (registry : List (Int × ChatConfig)) (x : String) :
    x ∈ poolUnion registry ↔ ∃ e ∈ registry, x ∈ e.2.pools := by
  suffices h : ∀ acc, x ∈ registry.foldl (fun acc e => e.2.pools.foldl insertUnique acc) acc ↔
      x ∈ acc ∨ ∃ e ∈ registry, x ∈ e.2.pools by
    simpa using h []
  induction registry with
  | nil => intro acc; simp
  | cons e rest ih =>
    intro acc
    rw [List.foldl_cons, ih, mem_foldl_insertUnique]
    constructor
    · rintro ((h | h) | h)
      · exact Or.inl h
      · exact Or.inr ⟨e, List.mem_cons_self e rest, h⟩
      · obtain ⟨f, hf, hx⟩ := h
        exact Or.inr ⟨f, List.mem_cons_of_mem e hf, hx⟩
    · rintro (h | ⟨f, hf, hx⟩)
      · exact Or.inl (Or.inl h)
      · rcases List.mem_cons.mp hf with hfe | hfr
        · exact Or.inl (Or.inr (hfe ▸ hx))
        · exact Or.inr ⟨f, hfr, hx⟩

/-- C8 as frozen: on a 404, every watcher is notified AND the feed leaves
the polling set until re-added — so the refreshed round-robin list no
longer contains it (the registry unchanged, since subscribers did not
re-add it). -/
def claimC8Stated : Prop :=
  ∀ (notified : List String) (registry : List (Int × ChatConfig))
    (activity : String → Int) (pool : String),
    (∀ e ∈ registry, pool ∈ e.2.pools →
      e.1 ∈ (notifyPoolGone notified registry pool).1) ∧
    pool ∉ refreshPoolSet registry activity

/-- A subscriber watching the dead pool. -/
def cfgC8 : ChatConfig :=
  { pools := ["0xdead"], minBuyUsd := 0
    gifUrl := none, gifFileId := none, gifChatId := none
    tokenSymbols := [], showSells := false, activeCompetition := none }

/-- C8 counterexample: `notifyPoolGone` touches only its notified set and
sends messages — the pool stays in the subscriber config, so the next
`refreshPoolSet` still returns it and it keeps being polled. -/
theorem pool_gone_claim_false : ¬ claimC8Stated := by
  intro h
  have h2 := (h [] [(1, cfgC8)] (fun _ => 0) "0xdead").2
  apply h2
  rw [refreshPoolSet, List.mem_mergeSort, mem_poolUnion]
  exact ⟨(1, cfgC8), by simp, by simp [cfgC8]⟩

/-- C8 amended: on the FIRST 404 for a pool, every subscriber whose config
tracks it is notified and the pool is added to the notified set; on later
404s (within the hour-long suppression window) nothing happens; and in
both cases polling continues — the refreshed polling set contains the pool
exactly as long as some subscriber's watch list does. -/
theorem pool_gone_notify_keep_polling (notified : List String)
    (registry : List (Int × ChatConfig)) (activity : String → Int)
    (pool : String) :
    (pool ∉ notified →
      (notifyPoolGone notified registry pool).1 =
        (registry.filter (fun e => decide (pool ∈ e.2.pools))).map Prod.fst ∧
      (notifyPoolGone notified registry pool).2 = pool :: notified) ∧
    (pool ∈ notified → notifyPoolGone notified registry pool = ([], notified)) ∧
    (pool ∈ refreshPoolSet registry activity ↔ ∃ e ∈ registry, pool ∈ e.2.pools) := by
  refine ⟨?_, ?_, ?_⟩
  · intro hni
    rw [notifyPoolGone, if_neg hni]
    exact ⟨rfl, rfl⟩
  · intro hin
    rw [notifyPoolGone, if_pos hin]
  · rw [refreshPoolSet, List.mem_mergeSort, mem_poolUnion]

/-- Witness for C8 (amended): the first 404 on "0xdead" notifies chat 1. -/
theorem pool_gone_notify_keep_polling_w :
    (notifyPoolGone [] [(1, cfgC8)] "0xdead").1 = [1] := by
  have h := ((pool_gone_notify_keep_polling [] [(1, cfgC8)] (fun _ => 0)
    "0xdead").1 (by simp)).1
  rw [h]
  decide

end BescBot
